import Mathlib

/-!
Verification of `tools/binary_size/map2size.py` (proto-quic).

The Python source is shallowly embedded below.  Symbol names are modelled as
`List Char` (Python `str`), machine integers as `Int` (Python ints are
unbounded), and fatal `assert` statements / uncaught exceptions as the
`Except String` monad: a `.error` value means the run aborts at that point
and no snapshot is produced.

Collaborators of the analyzed file that are not part of the repository
snapshot under `src/` (`models.py`, `function_signature.py`,
`file_format.py`, `ninja_parser.py`, the external demangler process) are
modelled from the specification where needed; each such definition carries a
doc comment saying so.  Logging calls are ignored (they do not affect the
data flow).
-/

set_option autoImplicit false

namespace M2S

/-- Tests whether the second list is a prefix of the first list
(Python `str.startswith`). -/
def leadsWith : List Char → List Char → Bool
  | _, [] => true
  | [], _ :: _ => false
  | a :: s, b :: t => a == b && leadsWith s t

/-- Index of the first occurrence of `sub` in a list of characters, if any. -/
def subIndex (sub : List Char) : List Char → Option Nat
  | [] => if leadsWith [] sub then some 0 else none
  | c :: t => if leadsWith (c :: t) sub then some 0 else (subIndex sub t).map (· + 1)

/-- Python `s.find(sub, 0, limit)`: the match must lie entirely inside
`s[0:limit]`; `none` plays the role of the `-1` result. -/
def pyFind (s sub : List Char) (limit : Nat) : Option Nat :=
  subIndex sub (s.take limit)

/-- Worker for `removeAllSub`: when the skip counter is positive the
characters of the current match are being consumed. -/
def removeGo (sub : List Char) : Nat → List Char → List Char
  | _ + 1, [] => []
  | skip + 1, _ :: t => removeGo sub skip t
  | 0, [] => []
  | 0, c :: t =>
    if leadsWith (c :: t) sub then removeGo sub (sub.length - 1) t
    else c :: removeGo sub 0 t

/-- Python `s.replace(sub, '')`: removes every (non-overlapping, leftmost)
occurrence of a non-empty `sub`. -/
def removeAllSub (sub s : List Char) : List Char :=
  removeGo sub 0 s

/-- Index of the first occurrence of a character. -/
def firstIdxOf (c : Char) : List Char → Option Nat
  | [] => none
  | a :: t => if a == c then some 0 else (firstIdxOf c t).map (· + 1)

/-- Index of the last occurrence of a character. -/
def lastIdxOf (c : Char) (s : List Char) : Option Nat :=
  (firstIdxOf c s.reverse).map (fun i => s.length - 1 - i)

/-- Python `re.sub(r'\x7b..\x7d', ...)` is not needed; this models
`re.sub` with the greedy pattern "backslash ( dot star backslash )" and an
empty replacement: it removes everything from the first open paren to the
last close paren, provided the close paren comes after the open paren
(names contain no newline). -/
def stripParens (s : List Char) : List Char :=
  match firstIdxOf '(' s, lastIdxOf ')' s with
  | some i, some j => if i < j then s.take i ++ s.drop (j + 1) else s
  | _, _ => s

/-- One symbol of the binary, as in `models.py` (not under `src/`).
Modelled from the spec: field list of the Symbol record, section 3 of the
design document.  `sectionLetter` stands for the Python attribute
`section` (a Lean keyword). -/
structure Symbol where
  name : List Char
  full_name : List Char
  address : Int
  size : Int
  padding : Int
  sectionLetter : Char
  section_name : List Char
  object_path : List Char
  source_path : List Char
  is_anonymous : Bool
deriving DecidableEq, Repr

attribute [ext] Symbol

/-- Modelled from the spec: `Symbol.end_address` of the missing `models.py`,
defined in section 4.1 of the design document as `address + size`. -/
def endAddress (s : Symbol) : Int := s.address + s.size

/-- Modelled from the spec: `Symbol.size_without_padding` of the missing
`models.py`, "original size before padding absorption", i.e. the size with
the absorbed padding taken back out. -/
def sizeWithoutPadding (s : Symbol) : Int := s.size - s.padding

/-- The reserved marker character of placeholder names. -/
def starC : List Char := ['*']

/-- Model of `SizeInfo` from the missing `models.py`.  Modelled from the spec: a
section-name-to-size mapping plus the symbol group (the metadata record is
carried separately where needed).  The mapping is an association list with
distinct keys. -/
structure SizeInfo where
  section_sizes : List (List Char × Int)
  symbols : List Symbol
deriving DecidableEq, Repr

/-- Loop body of `_RemoveDuplicatesAndCalculatePadding` (map2size.py lines
162-202), scanning adjacent pairs.  `seen` is `seen_sections`, `prev` the
symbol at index `i`, and the remaining list the symbols at `i+1, ...`.
The fold branch of the source sets `symbol.size = max(...)` and then calls
`to_remove.add(symbol)`; since `to_remove` is initialized as a Python list
(line 162) and lists have no `add` method, that statement raises
`AttributeError`, which aborts the run, hence the `.error` result there. -/
def recAux (seen : List (List Char)) (prev : Symbol) : List Symbol → Except String (List Symbol)
  | [] => .ok [prev]
  | sym :: rest =>
    if prev.section_name ≠ sym.section_name then
      if seen.contains sym.section_name then
        .error "Input symbols must be sorted by section, then address."
      else
        (prev :: ·) <$> recAux (seen ++ [sym.section_name]) sym rest
    else if sym.address ≤ 0 ∨ prev.address ≤ 0 then
      (prev :: ·) <$> recAux seen sym rest
    else if sym.address = prev.address ∧ sizeWithoutPadding prev ≠ 0 then
      .error "AttributeError: list object has no attribute add"
    else
      let padding := sym.address - endAddress prev
      if leadsWith sym.name starC = false ∧
          ((sym.sectionLetter = 'r' ∨ sym.sectionLetter = 'd') ∧ 256 ≤ padding ∨
            sym.sectionLetter = 't' ∧ 64 ≤ padding) then
        (prev :: ·) <$> recAux seen sym rest
      else
        let sym' : Symbol := { sym with padding := padding, size := sym.size + padding }
        if sym'.size < 0 then
          .error "Symbol has negative size (likely not sorted properly)."
        else
          (prev :: ·) <$> recAux seen sym' rest

/-- Embedding of `_RemoveDuplicatesAndCalculatePadding` (map2size.py lines 157-206).
On every path that reaches line 206 `to_remove` is still empty (the only
statement that would populate it raises instead), so the bulk removal is a
no-op and the function returns the scanned list itself. -/
def _RemoveDuplicatesAndCalculatePadding : List Symbol → Except String (List Symbol)
  | [] => .ok []
  | s :: rest => recAux [] s rest

/-- Rewrite of map2size.py line 73: `name[idx+5:] + ' [' + name[:idx] + ']'`
for the five-character pattern " for ". -/
def rewriteFor (n : List Char) (i : Nat) : List Char :=
  n.drop (i + 5) ++ " [".data ++ n.take i ++ "]".data

/-- Rewrite of map2size.py line 79: `name[idx+4:] + ' [' + name[:idx] + ']'`
for the four-character pattern " to ". -/
def rewriteTo (n : List Char) (i : Nat) : List Char :=
  n.drop (i + 4) ++ " [".data ++ n.take i ++ "]".data

/-- The pattern " for " of map2size.py line 70. -/
def forTok : List Char := " for ".data

/-- The pattern " to " of map2size.py line 76. -/
def toTok : List Char := " to ".data

/-- The anonymous namespace token of map2size.py line 86. -/
def anonTok : List Char := "(anonymous namespace)::".data

/-- Rewriting steps of the `_NormalizeNames` loop body (map2size.py lines
69-97): the " for " rewrite, the " to " rewrite applied to the possibly
already rewritten name, the signature parse for code symbols, anonymous
namespace removal, and the parenthesis rule for non-code symbols.  `fsP`
stands for `function_signature.Parse` (that module is not under `src/`),
returning `(full_name, name)`; it is kept as a parameter.  The
`found_prefixes` set only feeds a debug log and is dropped.

The " for " rewrite of map2size.py lines 70-73. -/
def stepFor (s0 : Symbol) : Symbol :=
  match pyFind s0.name forTok 30 with
  | some i => { s0 with name := rewriteFor s0.name i }
  | none => s0

/-- The " to " rewrite of map2size.py lines 76-79, applied to the name as it
stands after `stepFor` (the source has no `else` between the two). -/
def stepTo (s1 : Symbol) : Symbol :=
  match pyFind s1.name toTok 30 with
  | some i => { s1 with name := rewriteTo s1.name i }
  | none => s1

/-- The code-section signature parse of map2size.py lines 82-83. -/
def stepParse (fsP : List Char → List Char × List Char) (s2 : Symbol) : Symbol :=
  if s2.sectionLetter = 't' then
    { s2 with full_name := (fsP s2.name).1, name := (fsP s2.name).2 }
  else s2

/-- The anonymous namespace removal of map2size.py lines 86-91. -/
def stepAnon (s3 : Symbol) : Symbol :=
  if s3.name = removeAllSub anonTok s3.name then s3
  else
    { s3 with is_anonymous := true, name := removeAllSub anonTok s3.name,
              full_name := removeAllSub anonTok s3.full_name }

/-- The parenthesis rule for non-code symbols of map2size.py lines 93-97. -/
def stepParen (s4 : Symbol) : Symbol :=
  if s4.sectionLetter ≠ 't' ∧ s4.name.contains '(' then
    { s4 with full_name := s4.name, name := stripParens s4.name }
  else s4

/-- The five rewriting steps in source order. -/
def normalizeSteps (fsP : List Char → List Char × List Char) (s0 : Symbol) : Symbol :=
  stepParen (stepAnon (stepParse fsP (stepTo (stepFor s0))))

/-- Final step of the `_NormalizeNames` loop body (map2size.py lines
100-101): an identical `full_name` is cleared rather than stored twice. -/
def dedupFull (s : Symbol) : Symbol :=
  if s.full_name = s.name then { s with full_name := [] } else s

/-- Per-symbol body of `_NormalizeNames` (map2size.py lines 63-101): names
starting with the reserved marker are never touched, all others go through
the rewriting steps and the final clearing of a redundant `full_name`. -/
def normalizeSym (fsP : List Char → List Char × List Char) (s0 : Symbol) : Symbol :=
  if leadsWith s0.name starC then s0
  else dedupFull (normalizeSteps fsP s0)

/-- Embedding of `_NormalizeNames` (map2size.py lines 53-103): the per-symbol rewriting
applied to every symbol of the group. -/
def _NormalizeNames (fsP : List Char → List Char × List Char) (syms : List Symbol) : List Symbol :=
  syms.map (normalizeSym fsP)

/-- The mangled-name marker of map2size.py line 39. -/
def zTok : List Char := "_Z".data

/-- Positional rewriting of map2size.py lines 49-50: the `k`-th symbol whose
name carries the mangled marker gets output line `k`; when the output has
fewer lines than candidates the remaining candidates keep their names
(`enumerate` simply stops). -/
def applyRenames (lines : List (List Char)) : Nat → List Symbol → List Symbol
  | _, [] => []
  | k, s :: rest =>
    if leadsWith s.name zTok then
      { s with name := lines.getD k s.name } :: applyRenames lines (k + 1) rest
    else
      s :: applyRenames lines k rest

/-- Embedding of `_UnmangleRemainingSymbols` (map2size.py lines 37-50).  The external
`c++filt` process is modelled by `dem`, mapping the submitted names to the
pair (exit code, output lines of its stdout).  A non-zero exit code fails
the `assert` on line 47; output lines beyond the number of candidates make
`to_process[i]` raise `IndexError` on line 50.  Both abort the run. -/
def _UnmangleRemainingSymbols (dem : List (List Char) → Int × List (List Char))
    (syms : List Symbol) : Except String (List Symbol) :=
  if (syms.filter (fun s => leadsWith s.name zTok)).isEmpty then .ok syms
  else if (dem ((syms.filter (fun s => leadsWith s.name zTok)).map (fun s => s.name))).1 ≠ 0 then
    .error "assert proc.returncode == 0"
  else if (syms.filter (fun s => leadsWith s.name zTok)).length <
      (dem ((syms.filter (fun s => leadsWith s.name zTok)).map (fun s => s.name))).2.length then
    .error "IndexError: list index out of range"
  else
    .ok (applyRenames
      (dem ((syms.filter (fun s => leadsWith s.name zTok)).map (fun s => s.name))).2 0 syms)

/-- Modelled from the Python standard library: `os.path.join` for the
relative second component produced on map2size.py line 119. -/
def pathJoin (a b : List Char) : List Char :=
  if a.isEmpty then b
  else if a.getLast? = some '/' then a ++ b
  else a ++ '/' :: b

/-- Per-path body of `_NormalizeObjectPaths` (map2size.py lines 109-120).
`path.index('(')` on line 118 raises `ValueError` when no open paren
exists, hence the fallible result. -/
def normalizeObjectPath (p0 : List Char) : Except String (List Char) :=
  let p1 :=
    if leadsWith p0 "obj/".data then p0.drop 4
    else if leadsWith p0 "../../".data then p0.drop 6
    else p0
  if p1.getLast? = some ')' then
    match firstIdxOf '(' p1 with
    | none => .error "ValueError: substring not found"
    | some i => .ok (pathJoin (p1.take i) ((p1.drop (i + 1)).dropLast))
  else .ok p1

/-- Embedding of `_NormalizeObjectPaths` (map2size.py lines 106-120). -/
def _NormalizeObjectPaths : List Symbol → Except String (List Symbol)
  | [] => .ok []
  | s :: rest => do
    let p ← normalizeObjectPath s.object_path
    let r ← _NormalizeObjectPaths rest
    .ok ({ s with object_path := p } :: r)

/-- Embedding of `_NormalizeSourcePath` (map2size.py lines 123-130). -/
def _NormalizeSourcePath (p : List Char) : List Char :=
  if leadsWith p "gen/".data then p.drop 4
  else if leadsWith p "../../".data then p.drop 6
  else p

/-- Per-symbol body of `_ExtractSourcePaths` (map2size.py lines 141-152).
`mapper` stands for `ninja_parser.SourceFileMapper.FindSourceForPath`, a
collaborator outside the core; `none` or an empty string are the falsy
results of the Python call.  Returns the possibly updated symbol and the
contribution to `all_found`. -/
def extractStep (mapper : List Char → Option (List Char)) (s : Symbol) : Symbol × Bool :=
  if s.source_path ≠ [] ∨ s.object_path = [] then (s, true)
  else if leadsWith s.object_path "..".data then (s, true)
  else
    match mapper s.object_path with
    | some sp =>
      if sp = [] then (s, false)
      else ({ s with source_path := _NormalizeSourcePath sp }, true)
    | none => (s, false)

/-- Embedding of `_ExtractSourcePaths` (map2size.py lines 133-154): updates the symbols
and returns the `all_found` flag. -/
def _ExtractSourcePaths (mapper : List Char → Option (List Char))
    (syms : List Symbol) : List Symbol × Bool :=
  syms.foldr
    (fun s acc =>
      let r := extractStep mapper s
      (r.1 :: acc.1, r.2 && acc.2))
    ([], true)

/-- The `.size` branch of `Analyze` (map2size.py lines 216-225): a loaded
snapshot re-enters the pipeline at `_RemoveDuplicatesAndCalculatePadding`
and `_NormalizeNames` only. -/
def analyzeSizeFile (fsP : List Char → List Char × List Char)
    (stored : SizeInfo) : Except String SizeInfo := do
  let syms1 ← _RemoveDuplicatesAndCalculatePadding stored.symbols
  .ok { stored with symbols := _NormalizeNames fsP syms1 }

/-- The `.map` branch of `Analyze` (map2size.py lines 228-259): the fresh
pipeline over the parser output `parsed` (section sizes and the raw,
sorted symbol list).  The `assert all_found` of lines 246-248 sits between
source-path extraction and name normalization. -/
def analyzeMapFile (fsP : List Char → List Char × List Char)
    (dem : List (List Char) → Int × List (List Char))
    (mapper : List Char → Option (List Char))
    (parsed : List (List Char × Int) × List Symbol) : Except String SizeInfo := do
  let syms1 ← _RemoveDuplicatesAndCalculatePadding parsed.2
  let syms2 ← _UnmangleRemainingSymbols dem syms1
  let er := _ExtractSourcePaths mapper syms2
  if er.2 then
    let syms4 := _NormalizeNames fsP er.1
    let syms5 ← _NormalizeObjectPaths syms4
    .ok { section_sizes := parsed.1, symbols := syms5 }
  else
    .error "One or more source file paths could not be found."

/-- Python `dict.get` over the association-list model of `section_sizes`
(keys are distinct, so first match is the match). -/
def getDict (m : List (List Char × Int)) (k : List Char) : Option Int :=
  match m with
  | [] => none
  | (a, b) :: t => if a = k then some b else getDict t k

/-- The validation loop of `main` (map2size.py lines 358-360): every section
size reported by readelf must equal the reconciled entry; `dict.get`
returns `None` for an absent key and the assert then fails as well. -/
def checkSectionSizes (elfSizes : List (List Char × Int)) (info : SizeInfo) : Except String Unit :=
  match elfSizes with
  | [] => .ok ()
  | (k, v) :: t =>
    if getDict info.section_sizes k = some v then checkSectionSizes t info
    else .error "ELF file and .map file do not match."

/-- Tail of `main` on the fresh-artifact path with metadata available
(map2size.py lines 354-367): validate the authoritative section sizes, then
write the snapshot.  `file_format.SaveSizeInfo` is not under `src/`; the
`.ok` result stands for the snapshot that gets written, an `.error` for an
abort before the write. -/
def mainValidateAndSave (elfSizes : List (List Char × Int)) (info : SizeInfo) :
    Except String SizeInfo := do
  checkSectionSizes elfSizes info
  .ok info

/-- Modelled from the spec: `file_format.SaveSizeInfo`/`LoadSizeInfo` are not
under `src/`.  Section 6 of the design document fixes their contract: the
authoritative stored fields are the raw ones (name, address, size, section,
paths) and `padding` is always recomputed on load, never trusted.  Storing
and reloading a symbol therefore yields its raw size (the absorbed padding
taken back out) and a cleared padding field, all other fields unchanged. -/
def storeSymbol (s : Symbol) : Symbol :=
  { s with size := s.size - s.padding, padding := 0 }

/-- Modelled from the spec: placeholder instantiation for the missing
`function_signature.Parse` collaborator; the concrete statements below only
ever evaluate the pipeline on non-code symbols, which never invoke it. -/
def fsPStub : List Char → List Char × List Char := fun n => (n, n)

/-- Boolean success test for the `Except` model of a run. -/
def isOkE {α : Type} : Except String α → Bool
  | .ok _ => true
  | .error _ => false

/-! ## The reconciler seen through its decision-relevant fields

`recAux` reads only the address, size, padding, section letter, section
name and the leading-marker status of each symbol, and writes only size and
padding.  `RSig` isolates those fields; `recSig` replays the loop on them;
`recAux_sig` states the simulation.  Several claims follow from it. -/

/-- The fields of a symbol that the reconciler loop reads. -/
structure RSig where
  address : Int
  size : Int
  padding : Int
  sectionLetter : Char
  section_name : List Char
  star : Bool
deriving DecidableEq, Repr

/-- Projection of a symbol to its reconciler-relevant fields. -/
def sigOf (s : Symbol) : RSig :=
  { address := s.address, size := s.size, padding := s.padding,
    sectionLetter := s.sectionLetter, section_name := s.section_name,
    star := leadsWith s.name starC }

@[simp] theorem sigOf_address (s : Symbol) : (sigOf s).address = s.address := rfl
@[simp] theorem sigOf_size (s : Symbol) : (sigOf s).size = s.size := rfl
@[simp] theorem sigOf_padding (s : Symbol) : (sigOf s).padding = s.padding := rfl
@[simp] theorem sigOf_sectionLetter (s : Symbol) : (sigOf s).sectionLetter = s.sectionLetter := rfl
@[simp] theorem sigOf_section_name (s : Symbol) : (sigOf s).section_name = s.section_name := rfl
@[simp] theorem sigOf_star (s : Symbol) : (sigOf s).star = leadsWith s.name starC := rfl

/-- The reconciler loop replayed on the projected fields. -/
def recSig (seen : List (List Char)) (prev : RSig) : List RSig → Except String (List RSig)
  | [] => .ok [prev]
  | g :: rest =>
    if prev.section_name ≠ g.section_name then
      if seen.contains g.section_name then
        .error "Input symbols must be sorted by section, then address."
      else
        (prev :: ·) <$> recSig (seen ++ [g.section_name]) g rest
    else if g.address ≤ 0 ∨ prev.address ≤ 0 then
      (prev :: ·) <$> recSig seen g rest
    else if g.address = prev.address ∧ prev.size - prev.padding ≠ 0 then
      .error "AttributeError: list object has no attribute add"
    else
      let padding := g.address - (prev.address + prev.size)
      if g.star = false ∧
          ((g.sectionLetter = 'r' ∨ g.sectionLetter = 'd') ∧ 256 ≤ padding ∨
            g.sectionLetter = 't' ∧ 64 ≤ padding) then
        (prev :: ·) <$> recSig seen g rest
      else
        let g' : RSig := { g with padding := padding, size := g.size + padding }
        if g'.size < 0 then
          .error "Symbol has negative size (likely not sorted properly)."
        else
          (prev :: ·) <$> recSig seen g' rest

/-- Writes the size and padding of a projected result back into a symbol. -/
def patchSP (s : Symbol) (g : RSig) : Symbol :=
  { s with size := g.size, padding := g.padding }

/-- Pointwise `patchSP` over two lists. -/
def zipPatch : List Symbol → List RSig → List Symbol :=
  List.zipWith patchSP

@[simp] theorem zipPatch_nil (gs : List RSig) : zipPatch [] gs = [] := rfl

@[simp] theorem zipPatch_cons (s : Symbol) (l : List Symbol) (g : RSig) (gs : List RSig) :
    zipPatch (s :: l) (g :: gs) = patchSP s g :: zipPatch l gs := rfl

@[simp] theorem patchSP_self (s : Symbol) : patchSP s (sigOf s) = s := rfl

/-- The projected fields that the loop never writes. -/
def sigFrame (g : RSig) : Int × Char × List Char × Bool :=
  (g.address, g.sectionLetter, g.section_name, g.star)

/-- The fields of a symbol that the reconciler never writes. -/
def frameProj (s : Symbol) :
    List Char × List Char × Int × Char × List Char × List Char × List Char × Bool :=
  (s.name, s.full_name, s.address, s.sectionLetter, s.section_name,
    s.object_path, s.source_path, s.is_anonymous)

/-! ## Inputs and collaborator instantiations used by the concrete statements -/

/-- Builder for concrete test symbols: the parser hands over symbols whose
derived fields (`full_name`, `padding`, `source_path`, `is_anonymous`) are
still empty. -/
def mkSym (nm : List Char) (addr sz : Int) (sect : Char) (sname : List Char) : Symbol :=
  { name := nm, full_name := [], address := addr, size := sz, padding := 0,
    sectionLetter := sect, section_name := sname, object_path := [], source_path := [],
    is_anonymous := false }

/-- Fixed-point condition on an already normalized symbol: its name either
starts with the reserved marker or triggers none of the rewrite rules (no
" for " or " to " pattern within the first 30 characters, not a code-section
symbol, no anonymous-namespace token, no parenthesis). -/
def normFixedCond (t : Symbol) : Prop :=
  leadsWith t.name starC = true ∨
    (pyFind t.name forTok 30 = none ∧ pyFind t.name toTok 30 = none ∧
      t.sectionLetter ≠ 't' ∧ removeAllSub anonTok t.name = t.name ∧
      t.name.contains '(' = false)

instance (t : Symbol) : Decidable (normFixedCond t) := by
  unfold normFixedCond
  infer_instance

/-- The name produced by the first two rewriting rules: the " for " rewrite
when its pattern is found within the first 30 characters, followed by the
" to " rewrite on the resulting (possibly already rewritten, possibly
untouched) name when its pattern is found there. -/
def forToRewritten (n : List Char) : List Char :=
  match pyFind n forTok 30 with
  | some i =>
    match pyFind (rewriteFor n i) toTok 30 with
    | some j => rewriteTo (rewriteFor n i) j
    | none => rewriteFor n i
  | none =>
    match pyFind n toTok 30 with
    | some j => rewriteTo n j
    | none => n


/-- A demangler oracle that always answers one line "f()" with exit code
zero, used to exhibit a short-output batch. -/
def demOneLine : List (List Char) → Int × List (List Char) := fun _ => (0, ["f()".data])

/-- A demangler oracle that fails with exit code 1. -/
def demFail : List (List Char) → Int × List (List Char) := fun _ => (1, [])


/-- Paths of a symbol, the fields that decide source-path eligibility. -/
def pathsProj (s : Symbol) : List Char × List Char :=
  (s.object_path, s.source_path)

/-- Lookup collaborator that never finds a source file. -/
def mapperNone : List Char → Option (List Char) := fun _ => none

/-! ## Fields untouched by the later pipeline passes

The passes after the reconciler (unmangling, source-path extraction, name
normalization, object-path normalization) never write address, size,
padding, section letter or section name; `coreProj` collects those. -/

/-- The reconciler-owned fields of a symbol. -/
def coreProj (s : Symbol) : Int × Int × Int × Char × List Char :=
  (s.address, s.size, s.padding, s.sectionLetter, s.section_name)


/-- Read-only-section symbol used by the reload counterexample. -/
def c5p : Symbol := mkSym "p".data 100 10 'r' ".rodata".data

/-- Second read-only-section symbol: its raw name hides the reserved marker
behind an anonymous-namespace qualifier, and it sits exactly 256 bytes past
the end of `c5p`. -/
def c5c : Symbol := mkSym "(anonymous namespace)::*x".data 366 5 'r' ".rodata".data

/-! ## Theorems -/

/-! ## Generic inversion and congruence helpers -/

theorem emap_ok {α β : Type} (f : α → β) (e : Except String α) (b : β) :
    f <$> e = .ok b ↔ ∃ a, e = .ok a ∧ f a = b := by
  cases e <;> simp [Except.map, Functor.map]

theorem ebind_ok {α β : Type} (e : Except String α) (f : α → Except String β) (b : β) :
    e.bind f = .ok b ↔ ∃ a, e = .ok a ∧ f a = .ok b := by
  cases e <;> simp [Except.bind]

theorem emap_congr {α β : Type} {f g : α → β} (e : Except String α)
    (h : ∀ a, f a = g a) : f <$> e = g <$> e := by
  cases e <;> simp [Except.map, Functor.map, h]

theorem zipPatch_patch_head (s : Symbol) (h : RSig) (l : List Symbol) (gs : List RSig) :
    zipPatch (patchSP s h :: l) gs = zipPatch (s :: l) gs := by
  cases gs <;> rfl

theorem sigOf_patchSP (s : Symbol) (g : RSig) :
    sigOf (patchSP s g) = { g with address := s.address, sectionLetter := s.sectionLetter,
                                   section_name := s.section_name, star := leadsWith s.name starC } := rfl

/-- The simulation: the reconciler loop is the projected loop followed by a
pointwise write-back of sizes and paddings. -/
theorem recAux_sig (xs : List Symbol) : ∀ (seen : List (List Char)) (p : Symbol),
    recAux seen p xs =
      Except.map (fun gs => zipPatch (p :: xs) gs) (recSig seen (sigOf p) (xs.map sigOf)) := by
  induction xs with
  | nil =>
    intro seen p
    simp [recAux, recSig, Except.map, zipPatch]
  | cons sym rest ih =>
    intro seen p
    simp only [recAux, recSig, List.map_cons, sigOf_address, sigOf_size, sigOf_padding,
      sigOf_sectionLetter, sigOf_section_name, sigOf_star, sizeWithoutPadding, endAddress]
    split_ifs with h1 h2 h3 h4 h5 h6
    · rfl
    · rw [ih]
      cases recSig (seen ++ [sym.section_name]) (sigOf sym) (rest.map sigOf) <;>
        simp [Except.map, Functor.map]
    · rw [ih]
      cases recSig seen (sigOf sym) (rest.map sigOf) <;>
        simp [Except.map, Functor.map]
    · rfl
    · rw [ih]
      cases recSig seen (sigOf sym) (rest.map sigOf) <;>
        simp [Except.map, Functor.map]
    · -- attribute branch, negative-size assert fires
      rfl
    · -- attribute branch, size updated
      rw [ih]
      simp only [sigOf, endAddress]
      cases recSig seen
          { address := sym.address, size := sym.size + (sym.address - (p.address + p.size)),
            padding := sym.address - (p.address + p.size), sectionLetter := sym.sectionLetter,
            section_name := sym.section_name, star := leadsWith sym.name starC }
          (rest.map sigOf) with
      | error e => rfl
      | ok gs => cases gs <;> rfl

theorem except_map_ok {α β : Type} (f : α → β) (e : Except String α) (b : β) :
    Except.map f e = .ok b ↔ ∃ a, e = .ok a ∧ f a = b := by
  cases e <;> simp [Except.map]

/-- Successful projected runs produce one entry per input symbol. -/
theorem recSig_ok_length : ∀ (gs : List RSig) (seen : List (List Char)) (p : RSig)
    (out : List RSig), recSig seen p gs = .ok out → out.length = gs.length + 1 := by
  intro gs
  induction gs with
  | nil =>
    intro seen p out h
    simp only [recSig, Except.ok.injEq] at h
    subst h; rfl
  | cons g rest ih =>
    intro seen p out h
    simp only [recSig] at h
    split_ifs at h with h1 h2 h3 h4 h5 h6
    · rw [emap_ok] at h
      obtain ⟨t, ht, hout⟩ := h
      subst hout; simp [ih _ _ _ ht]
    · rw [emap_ok] at h
      obtain ⟨t, ht, hout⟩ := h
      subst hout; simp [ih _ _ _ ht]
    · rw [emap_ok] at h
      obtain ⟨t, ht, hout⟩ := h
      subst hout; simp [ih _ _ _ ht]
    · rw [emap_ok] at h
      obtain ⟨t, ht, hout⟩ := h
      subst hout; simp [ih _ _ _ ht]

/-- A successful projected run keeps every field other than size and
padding, positionally. -/
theorem recSig_frame : ∀ (gs : List RSig) (seen : List (List Char)) (p : RSig)
    (out : List RSig), recSig seen p gs = .ok out →
    out.map sigFrame = (p :: gs).map sigFrame := by
  intro gs
  induction gs with
  | nil =>
    intro seen p out h
    simp only [recSig, Except.ok.injEq] at h
    subst h; rfl
  | cons g rest ih =>
    intro seen p out h
    simp only [recSig] at h
    split_ifs at h with h1 h2 h3 h4 h5 h6
    · rw [emap_ok] at h
      obtain ⟨t, ht, hout⟩ := h
      subst hout; simp [ih _ _ _ ht]
    · rw [emap_ok] at h
      obtain ⟨t, ht, hout⟩ := h
      subst hout; simp [ih _ _ _ ht]
    · rw [emap_ok] at h
      obtain ⟨t, ht, hout⟩ := h
      subst hout; simp [ih _ _ _ ht]
    · rw [emap_ok] at h
      obtain ⟨t, ht, hout⟩ := h
      subst hout
      have := ih _ _ _ ht
      simp only [List.map_cons] at this ⊢
      rw [this]
      simp [sigFrame]

/-- When all input paddings are zero, a successful projected run satisfies
"output size minus output padding equals input size", and the head entry
keeps its size-minus-padding value. -/
theorem recSig_smp : ∀ (gs : List RSig) (seen : List (List Char)) (p : RSig)
    (out : List RSig), (∀ g ∈ gs, g.padding = 0) → recSig seen p gs = .ok out →
    out.map (fun g => g.size - g.padding) =
      (p.size - p.padding) :: gs.map (fun g => g.size) := by
  intro gs
  induction gs with
  | nil =>
    intro seen p out _ h
    simp only [recSig, Except.ok.injEq] at h
    subst h; rfl
  | cons g rest ih =>
    intro seen p out hz h
    have hzg : g.padding = 0 := hz g (by simp)
    have hzr : ∀ x ∈ rest, x.padding = 0 := fun x hx => hz x (by simp [hx])
    simp only [recSig] at h
    split_ifs at h with h1 h2 h3 h4 h5 h6
    · rw [emap_ok] at h
      obtain ⟨t, ht, hout⟩ := h
      subst hout
      simp [ih _ _ _ hzr ht, hzg]
    · rw [emap_ok] at h
      obtain ⟨t, ht, hout⟩ := h
      subst hout
      simp [ih _ _ _ hzr ht, hzg]
    · rw [emap_ok] at h
      obtain ⟨t, ht, hout⟩ := h
      subst hout
      simp [ih _ _ _ hzr ht, hzg]
    · rw [emap_ok] at h
      obtain ⟨t, ht, hout⟩ := h
      subst hout
      have := ih _ _ _ hzr ht
      simp only [List.map_cons] at this ⊢
      rw [this]
      simp

/-- A successful projected run on nonnegative sizes yields nonnegative
sizes: the negative case hits the assert instead. -/
theorem recSig_nonneg : ∀ (gs : List RSig) (seen : List (List Char)) (p : RSig)
    (out : List RSig), 0 ≤ p.size → (∀ g ∈ gs, 0 ≤ g.size) →
    recSig seen p gs = .ok out → ∀ g ∈ out, 0 ≤ g.size := by
  intro gs
  induction gs with
  | nil =>
    intro seen p out hp _ h
    simp only [recSig, Except.ok.injEq] at h
    subst h
    intro g hg
    simp at hg
    subst hg; exact hp
  | cons g rest ih =>
    intro seen p out hp hs h
    have hg0 : 0 ≤ g.size := hs g (by simp)
    have hrest : ∀ x ∈ rest, 0 ≤ x.size := fun x hx => hs x (by simp [hx])
    simp only [recSig] at h
    split_ifs at h with h1 h2 h3 h4 h5 h6
    · rw [emap_ok] at h
      obtain ⟨t, ht, hout⟩ := h
      subst hout
      intro x hx
      rcases List.mem_cons.mp hx with hx | hx
      · subst hx; exact hp
      · exact ih _ _ _ hg0 hrest ht x hx
    · rw [emap_ok] at h
      obtain ⟨t, ht, hout⟩ := h
      subst hout
      intro x hx
      rcases List.mem_cons.mp hx with hx | hx
      · subst hx; exact hp
      · exact ih _ _ _ hg0 hrest ht x hx
    · rw [emap_ok] at h
      obtain ⟨t, ht, hout⟩ := h
      subst hout
      intro x hx
      rcases List.mem_cons.mp hx with hx | hx
      · subst hx; exact hp
      · exact ih _ _ _ hg0 hrest ht x hx
    · rw [emap_ok] at h
      obtain ⟨t, ht, hout⟩ := h
      subst hout
      intro x hx
      rcases List.mem_cons.mp hx with hx | hx
      · subst hx; exact hp
      · refine ih _ _ _ ?_ hrest ht x hx
        simp only [not_lt] at h6
        exact h6

/-- Every element of a patched list takes its size from the signature
list. -/
theorem zipPatch_size_mem : ∀ (xs : List Symbol) (gs : List RSig) (s : Symbol),
    s ∈ zipPatch xs gs → ∃ g, g ∈ gs ∧ s.size = g.size := by
  intro xs
  induction xs with
  | nil => intro gs s h; simp [zipPatch] at h
  | cons x xt ih =>
    intro gs s h
    cases gs with
    | nil => simp [zipPatch] at h
    | cons g gt =>
      rw [zipPatch_cons, List.mem_cons] at h
      rcases h with h | h
      · exact ⟨g, by simp, by simp [h, patchSP]⟩
      · obtain ⟨g', hg', hs⟩ := ih gt s h
        exact ⟨g', by simp [hg'], hs⟩

/-- Mapping a patch-invariant function over a patched list recovers the map
over the original list. -/
theorem zipPatch_map_inv {α : Type} (f : Symbol → α) (hf : ∀ s g, f (patchSP s g) = f s) :
    ∀ (xs : List Symbol) (gs : List RSig), xs.length = gs.length →
    (zipPatch xs gs).map f = xs.map f := by
  intro xs
  induction xs with
  | nil => intro gs _; simp [zipPatch]
  | cons x xt ih =>
    intro gs hlen
    cases gs with
    | nil => simp at hlen
    | cons g gt =>
      simp only [zipPatch_cons, List.map_cons, hf]
      rw [ih gt (by simpa using hlen)]

theorem zipPatch_map_size : ∀ (xs : List Symbol) (gs : List RSig),
    xs.length = gs.length → (zipPatch xs gs).map (fun s => s.size) = gs.map (fun g => g.size) := by
  intro xs
  induction xs with
  | nil =>
    intro gs hlen
    cases gs with
    | nil => rfl
    | cons g gt => simp at hlen
  | cons x xt ih =>
    intro gs hlen
    cases gs with
    | nil => simp at hlen
    | cons g gt =>
      simp only [zipPatch_cons, List.map_cons, patchSP]
      rw [ih gt (by simpa using hlen)]

theorem zipPatch_map_padding : ∀ (xs : List Symbol) (gs : List RSig),
    xs.length = gs.length →
    (zipPatch xs gs).map (fun s => s.padding) = gs.map (fun g => g.padding) := by
  intro xs
  induction xs with
  | nil =>
    intro gs hlen
    cases gs with
    | nil => rfl
    | cons g gt => simp at hlen
  | cons x xt ih =>
    intro gs hlen
    cases gs with
    | nil => simp at hlen
    | cons g gt =>
      simp only [zipPatch_cons, List.map_cons, patchSP]
      rw [ih gt (by simpa using hlen)]

/-- Inversion of a successful reconciler run through the simulation. -/
theorem reconcile_ok_inv (p : Symbol) (xs out : List Symbol)
    (h : _RemoveDuplicatesAndCalculatePadding (p :: xs) = .ok out) :
    ∃ gs, recSig [] (sigOf p) (xs.map sigOf) = .ok gs ∧
      out = zipPatch (p :: xs) gs ∧ gs.length = xs.length + 1 := by
  have h' : recAux [] p xs = .ok out := h
  rw [recAux_sig] at h'
  rw [except_map_ok] at h'
  obtain ⟨gs, hgs, hout⟩ := h'
  have hlen := recSig_ok_length _ _ _ _ hgs
  simp only [List.length_map] at hlen
  exact ⟨gs, hgs, hout.symm, hlen⟩

/-- A successful reconciler run preserves, positionally, any projection
that ignores size and padding (shared helper for several claims). -/
theorem reconcile_proj_inv {α : Type} (f : Symbol → α) (hf : ∀ s g, f (patchSP s g) = f s)
    (syms out : List Symbol)
    (h : _RemoveDuplicatesAndCalculatePadding syms = .ok out) :
    out.map f = syms.map f := by
  cases syms with
  | nil =>
    simp only [_RemoveDuplicatesAndCalculatePadding, Except.ok.injEq] at h
    subst h; rfl
  | cons p xs =>
    obtain ⟨gs, _, hout, hlen⟩ := reconcile_ok_inv p xs out h
    subst hout
    exact zipPatch_map_inv f hf (p :: xs) gs (by simp [hlen])

/-- A successful reconciler run changes only sizes and paddings: every other
field survives positionally. -/
theorem reconcile_frame (syms out : List Symbol)
    (h : _RemoveDuplicatesAndCalculatePadding syms = .ok out) :
    out.map frameProj = syms.map frameProj :=
  reconcile_proj_inv frameProj (fun s g => rfl) syms out h

/-! ## Two-symbol runs of the reconciler (used for the threshold claim) -/

theorem reconcile_pair_skip (p c' : Symbol)
    (hsec : p.section_name = c'.section_name)
    (hpa : 0 < p.address) (hca : 0 < c'.address)
    (hnf : ¬(c'.address = p.address ∧ sizeWithoutPadding p ≠ 0))
    (hskip : leadsWith c'.name starC = false ∧
      ((c'.sectionLetter = 'r' ∨ c'.sectionLetter = 'd') ∧ 256 ≤ c'.address - endAddress p ∨
        c'.sectionLetter = 't' ∧ 64 ≤ c'.address - endAddress p)) :
    _RemoveDuplicatesAndCalculatePadding [p, c'] = .ok [p, c'] := by
  show recAux [] p [c'] = .ok [p, c']
  simp only [recAux]
  rw [if_neg (by simp [hsec]), if_neg (by omega), if_neg hnf, if_pos hskip]
  rfl

theorem reconcile_pair_attr (p c' : Symbol)
    (hsec : p.section_name = c'.section_name)
    (hpa : 0 < p.address) (hca : 0 < c'.address)
    (hnf : ¬(c'.address = p.address ∧ sizeWithoutPadding p ≠ 0))
    (hns : ¬(leadsWith c'.name starC = false ∧
      ((c'.sectionLetter = 'r' ∨ c'.sectionLetter = 'd') ∧ 256 ≤ c'.address - endAddress p ∨
        c'.sectionLetter = 't' ∧ 64 ≤ c'.address - endAddress p)))
    (hok : 0 ≤ c'.size + (c'.address - endAddress p)) :
    _RemoveDuplicatesAndCalculatePadding [p, c'] =
      .ok [p, { c' with padding := c'.address - endAddress p,
                        size := c'.size + (c'.address - endAddress p) }] := by
  show recAux [] p [c'] = _
  simp only [recAux]
  rw [if_neg (by simp [hsec]), if_neg (by omega), if_neg hnf, if_neg hns,
    if_neg (show ¬(c'.size + (c'.address - endAddress p) < 0) by omega)]
  rfl

/-- C1: the claim (with the spec) says that two consecutive same-section
symbols at the same positive address, the earlier one with non-zero
`size_without_padding`, are folded into a single surviving symbol whose size
is the max of the two sizes.  The code cannot do that: its fold branch calls
`to_remove.add(symbol)` on the Python list `to_remove`, which raises
`AttributeError` and aborts the run before anything is removed.  This
theorem evaluates the embedded reconciler at exactly such an input. -/
theorem c1_same_address_fold_raises :
    _RemoveDuplicatesAndCalculatePadding
        [mkSym "a".data 16 2 't' ".text".data, mkSym "b".data 16 3 't' ".text".data] =
      .error "AttributeError: list object has no attribute add" := by
  rfl

/-! ## Claim C2 -/

/-- C2: for consecutive same-section symbols with positive addresses whose
later symbol does not carry the reserved marker, a gap of exactly 256 bytes
in a read-only or data section is not attributed as padding (the symbol is
returned unchanged), a gap of 255 bytes is attributed (padding 255, size
increased by 255); in a code section the skip threshold is 64 (gap 64
skipped, gap 63 attributed). -/
theorem c2_padding_thresholds (p c : Symbol)
    (hsec : p.section_name = c.section_name)
    (hpa : 0 < p.address) (hps : 0 ≤ p.size) (hcs : 0 ≤ c.size)
    (_hcp : c.padding = 0)
    (hstar : leadsWith c.name starC = false) :
    ((c.sectionLetter = 'r' ∨ c.sectionLetter = 'd') →
      _RemoveDuplicatesAndCalculatePadding [p, { c with address := p.address + p.size + 256 }] =
          .ok [p, { c with address := p.address + p.size + 256 }] ∧
      _RemoveDuplicatesAndCalculatePadding [p, { c with address := p.address + p.size + 255 }] =
          .ok [p, { c with address := p.address + p.size + 255,
                           padding := 255, size := c.size + 255 }]) ∧
    (c.sectionLetter = 't' →
      _RemoveDuplicatesAndCalculatePadding [p, { c with address := p.address + p.size + 64 }] =
          .ok [p, { c with address := p.address + p.size + 64 }] ∧
      _RemoveDuplicatesAndCalculatePadding [p, { c with address := p.address + p.size + 63 }] =
          .ok [p, { c with address := p.address + p.size + 63,
                           padding := 63, size := c.size + 63 }]) := by
  constructor
  · intro hrd
    constructor
    · exact reconcile_pair_skip p _ hsec hpa (by show 0 < p.address + p.size + 256; omega)
        (fun hh => absurd hh.1 (show p.address + p.size + 256 ≠ p.address by omega))
        ⟨hstar, Or.inl ⟨hrd,
          show (256 : Int) ≤ p.address + p.size + 256 - (p.address + p.size) by omega⟩⟩
    · have h := reconcile_pair_attr p { c with address := p.address + p.size + 255 } hsec hpa
        (by show 0 < p.address + p.size + 255; omega)
        (fun hh => absurd hh.1 (show p.address + p.size + 255 ≠ p.address by omega))
        (by
          intro hh
          rcases hh.2 with ⟨_, h2⟩ | ⟨ht, _⟩
          · revert h2
            show ¬((256 : Int) ≤ p.address + p.size + 255 - (p.address + p.size))
            omega
          · have h3 : c.sectionLetter = 't' := ht
            rcases hrd with hr | hr <;> rw [h3] at hr <;> exact absurd hr (by decide))
        (by show 0 ≤ c.size + (p.address + p.size + 255 - (p.address + p.size)); omega)
      rw [h]
      have e : ({ c with address := p.address + p.size + 255 } : Symbol).address - endAddress p
          = 255 := by
        show p.address + p.size + 255 - (p.address + p.size) = 255
        ring
      rw [e]
  · intro ht
    constructor
    · exact reconcile_pair_skip p _ hsec hpa (by show 0 < p.address + p.size + 64; omega)
        (fun hh => absurd hh.1 (show p.address + p.size + 64 ≠ p.address by omega))
        ⟨hstar, Or.inr ⟨ht,
          show (64 : Int) ≤ p.address + p.size + 64 - (p.address + p.size) by omega⟩⟩
    · have h := reconcile_pair_attr p { c with address := p.address + p.size + 63 } hsec hpa
        (by show 0 < p.address + p.size + 63; omega)
        (fun hh => absurd hh.1 (show p.address + p.size + 63 ≠ p.address by omega))
        (by
          intro hh
          rcases hh.2 with ⟨hrd, _⟩ | ⟨_, h2⟩
          · have h3 : c.sectionLetter = 't' := ht
            rcases hrd with hr | hr <;> rw [h3] at hr <;> exact absurd hr (by decide)
          · revert h2
            show ¬((64 : Int) ≤ p.address + p.size + 63 - (p.address + p.size))
            omega)
        (by show 0 ≤ c.size + (p.address + p.size + 63 - (p.address + p.size)); omega)
      rw [h]
      have e : ({ c with address := p.address + p.size + 63 } : Symbol).address - endAddress p
          = 63 := by
        show p.address + p.size + 63 - (p.address + p.size) = 63
        ring
      rw [e]

/-- Witness for C2: concrete read-only-section and code-section instances of
the four threshold behaviors. -/
theorem c2_padding_thresholds_witness :
    (_RemoveDuplicatesAndCalculatePadding
        [mkSym "p".data 100 10 'r' ".rodata".data,
         { (mkSym "q".data 0 5 'r' ".rodata".data) with address := 100 + 10 + 256 }] =
      .ok [mkSym "p".data 100 10 'r' ".rodata".data,
         { (mkSym "q".data 0 5 'r' ".rodata".data) with address := 100 + 10 + 256 }]) ∧
    (_RemoveDuplicatesAndCalculatePadding
        [mkSym "p".data 100 10 'r' ".rodata".data,
         { (mkSym "q".data 0 5 'r' ".rodata".data) with address := 100 + 10 + 255 }] =
      .ok [mkSym "p".data 100 10 'r' ".rodata".data,
         { (mkSym "q".data 0 5 'r' ".rodata".data) with
            address := 100 + 10 + 255, padding := 255, size := 5 + 255 }]) ∧
    (_RemoveDuplicatesAndCalculatePadding
        [mkSym "f".data 100 10 't' ".text".data,
         { (mkSym "g".data 0 5 't' ".text".data) with address := 100 + 10 + 64 }] =
      .ok [mkSym "f".data 100 10 't' ".text".data,
         { (mkSym "g".data 0 5 't' ".text".data) with address := 100 + 10 + 64 }]) ∧
    (_RemoveDuplicatesAndCalculatePadding
        [mkSym "f".data 100 10 't' ".text".data,
         { (mkSym "g".data 0 5 't' ".text".data) with address := 100 + 10 + 63 }] =
      .ok [mkSym "f".data 100 10 't' ".text".data,
         { (mkSym "g".data 0 5 't' ".text".data) with
            address := 100 + 10 + 63, padding := 63, size := 5 + 63 }]) := by
  have hr := c2_padding_thresholds (mkSym "p".data 100 10 'r' ".rodata".data)
    (mkSym "q".data 0 5 'r' ".rodata".data) rfl (by decide) (by decide) (by decide)
    (by decide) (by decide)
  have ht := c2_padding_thresholds (mkSym "f".data 100 10 't' ".text".data)
    (mkSym "g".data 0 5 't' ".text".data) rfl (by decide) (by decide) (by decide)
    (by decide) (by decide)
  exact ⟨(hr.1 (Or.inl rfl)).1, (hr.1 (Or.inl rfl)).2, (ht.2 rfl).1, (ht.2 rfl).2⟩

/-! ## Claim C3 -/

/-- C3: on input symbols of nonnegative size, a successful reconciler run
never yields a symbol of negative size; when attributing a gap would turn a
size negative, the run aborts at the assert instead of producing the
group. -/
theorem c3_no_negative_sizes (syms out : List Symbol)
    (h0 : ∀ s ∈ syms, 0 ≤ s.size)
    (h : _RemoveDuplicatesAndCalculatePadding syms = .ok out) :
    ∀ s ∈ out, 0 ≤ s.size := by
  cases syms with
  | nil =>
    simp only [_RemoveDuplicatesAndCalculatePadding, Except.ok.injEq] at h
    subst h
    intro s hs
    simp at hs
  | cons p xs =>
    obtain ⟨gs, hgs, hout, _⟩ := reconcile_ok_inv p xs out h
    subst hout
    intro s hs
    obtain ⟨g, hg, hsize⟩ := zipPatch_size_mem _ _ _ hs
    rw [hsize]
    refine recSig_nonneg (xs.map sigOf) [] (sigOf p) gs ?_ ?_ hgs g hg
    · simpa using h0 p (by simp)
    · intro g' hg'
      obtain ⟨x, hx, rfl⟩ := List.mem_map.mp hg'
      simpa using h0 x (by simp [hx])

/-- Witness for C3: symbol at address 10, size 5, applied to the theorem. -/
theorem c3_no_negative_sizes_witness :
    0 ≤ (mkSym "w".data 10 5 'r' ".rodata".data).size :=
  c3_no_negative_sizes [mkSym "w".data 10 5 'r' ".rodata".data]
    [mkSym "w".data 10 5 'r' ".rodata".data] (by decide) (by rfl)
    (mkSym "w".data 10 5 'r' ".rodata".data) (by simp)

/-! ## Claim C10 -/

/-- C10: the reconciler writes only `size` and `padding`.  Every symbol of a
successful run's output keeps its `name`, `full_name`, `address`, section
letter, `section_name`, `object_path`, `source_path` and `is_anonymous`
values, positionally (and on a successful run no symbol is removed, the
would-be fold raising instead). -/
theorem c10_reconciler_frame (syms out : List Symbol)
    (h : _RemoveDuplicatesAndCalculatePadding syms = .ok out) :
    out.map frameProj = syms.map frameProj :=
  reconcile_frame syms out h

/-- Witness for C10: a two-symbol code-section group whose second symbol
absorbs two bytes of padding keeps all frame fields. -/
theorem c10_reconciler_frame_witness :
    ([mkSym "f".data 4 2 't' ".text".data,
      { (mkSym "g".data 8 4 't' ".text".data) with padding := 2, size := 6 }].map frameProj) =
      ([mkSym "f".data 4 2 't' ".text".data, mkSym "g".data 8 4 't' ".text".data].map frameProj) :=
  c10_reconciler_frame [mkSym "f".data 4 2 't' ".text".data, mkSym "g".data 8 4 't' ".text".data]
    [mkSym "f".data 4 2 't' ".text".data,
      { (mkSym "g".data 8 4 't' ".text".data) with padding := 2, size := 6 }] (by rfl)

/-! ## Name normalizer lemmas -/

theorem normalizeSym_star (fsP : List Char → List Char × List Char) (s : Symbol)
    (h : leadsWith s.name starC = true) : normalizeSym fsP s = s := by
  simp [normalizeSym, h]

theorem dedupFull_name (s : Symbol) : (dedupFull s).name = s.name := by
  unfold dedupFull
  split_ifs <;> rfl

theorem dedupFull_inv (s : Symbol) :
    (dedupFull s).full_name = [] ∨ (dedupFull s).full_name ≠ (dedupFull s).name := by
  unfold dedupFull
  split_ifs with h
  · left; rfl
  · right; exact h

theorem dedupFull_fix (t : Symbol) (h : t.full_name = [] ∨ t.full_name ≠ t.name) :
    dedupFull t = t := by
  unfold dedupFull
  split_ifs with hh
  · have h0 : t.full_name = [] := by
      rcases h with h0 | hne
      · exact h0
      · exact absurd hh hne
    ext <;> simp [h0]
  · rfl

theorem normalizeSym_fullname_inv (fsP : List Char → List Char × List Char) (s : Symbol)
    (h : leadsWith s.name starC = false) :
    (normalizeSym fsP s).full_name = [] ∨
      (normalizeSym fsP s).full_name ≠ (normalizeSym fsP s).name := by
  unfold normalizeSym
  simp only [h, Bool.false_eq_true, if_false]
  exact dedupFull_inv _

theorem normalizeSteps_fix (fsP : List Char → List Char × List Char) (t : Symbol)
    (hfor : pyFind t.name forTok 30 = none) (hto : pyFind t.name toTok 30 = none)
    (hsec : t.sectionLetter ≠ 't') (hanon : removeAllSub anonTok t.name = t.name)
    (hpar : t.name.contains '(' = false) :
    normalizeSteps fsP t = t := by
  have h1 : stepFor t = t := by unfold stepFor; rw [hfor]
  have h2 : stepTo t = t := by unfold stepTo; rw [hto]
  have h3 : stepParse fsP t = t := by unfold stepParse; rw [if_neg hsec]
  have h4 : stepAnon t = t := by unfold stepAnon; rw [if_pos hanon.symm]
  have h5 : stepParen t = t := by
    unfold stepParen
    rw [if_neg (fun hcontra => absurd hcontra.2 (by rw [hpar]; simp))]
  unfold normalizeSteps
  rw [h1, h2, h3, h4, h5]

/-- Second application of the per-symbol normalization is the identity on a
symbol whose name triggers none of the rewrite rules. -/
theorem normalizeSym_fix (fsP : List Char → List Char × List Char) (t : Symbol)
    (hinv : t.full_name = [] ∨ t.full_name ≠ t.name)
    (hfor : pyFind t.name forTok 30 = none) (hto : pyFind t.name toTok 30 = none)
    (hsec : t.sectionLetter ≠ 't') (hanon : removeAllSub anonTok t.name = t.name)
    (hpar : t.name.contains '(' = false) :
    normalizeSym fsP t = t := by
  unfold normalizeSym
  split_ifs with hst
  · rfl
  · rw [normalizeSteps_fix fsP t hfor hto hsec hanon hpar, dedupFull_fix t hinv]

/-! ## Claim C6 -/

/-- C6: the claim says the Name Normalizer is idempotent on every group.
It is not: a name whose once-rewritten form again contains the " for "
pattern in its first 30 characters is rewritten a second time.  On the name
"x for y for z" the first pass produces "y for z [x]" and the second pass
produces "z [x] [y]". -/
theorem c6_normalize_not_idempotent :
    _NormalizeNames fsPStub
        (_NormalizeNames fsPStub [mkSym "x for y for z".data 1 1 'r' ".rodata".data]) ≠
      _NormalizeNames fsPStub [mkSym "x for y for z".data 1 1 'r' ".rodata".data] := by
  decide

/-- C6 (amended): the Name Normalizer is idempotent on every group whose
once-normalized symbols trigger none of the rewrite rules again; names like
"x for y for z", whose normalized form "y for z [x]" still contains a
" for " pattern within the first 30 characters, are rewritten again by a
second pass. -/
theorem c6_normalize_idempotent_amended (fsP : List Char → List Char × List Char)
    (syms : List Symbol)
    (hc : ∀ t ∈ _NormalizeNames fsP syms, normFixedCond t) :
    _NormalizeNames fsP (_NormalizeNames fsP syms) = _NormalizeNames fsP syms := by
  unfold _NormalizeNames at hc ⊢
  rw [List.map_map]
  apply List.map_congr_left
  intro s hs
  have hcnd := hc (normalizeSym fsP s) (List.mem_map_of_mem _ hs)
  show normalizeSym fsP (normalizeSym fsP s) = normalizeSym fsP s
  by_cases hst : leadsWith s.name starC = true
  · rw [normalizeSym_star fsP s hst]
    exact normalizeSym_star fsP s hst
  · have hstf : leadsWith s.name starC = false := by simpa using hst
    rcases hcnd with hq | ⟨hfor, hto, hsec, hanon, hpar⟩
    · exact normalizeSym_star fsP _ hq
    · exact normalizeSym_fix fsP _ (normalizeSym_fullname_inv fsP s hstf) hfor hto hsec hanon hpar

/-- Witness for C6 (amended), which also checks the vtable example of the
spec: normalizing "vtable for Foo" gives "Foo [vtable]", and a second pass
leaves the group unchanged. -/
theorem c6_normalize_idempotent_amended_witness :
    _NormalizeNames fsPStub
        (_NormalizeNames fsPStub [mkSym "vtable for Foo".data 1 1 'r' ".rodata".data]) =
      _NormalizeNames fsPStub [mkSym "vtable for Foo".data 1 1 'r' ".rodata".data] :=
  c6_normalize_idempotent_amended fsPStub
    [mkSym "vtable for Foo".data 1 1 'r' ".rodata".data] (by decide)

/-! ## Claim C7 -/

/-- C7: the claim says the " to " rewrite is applied only when no " for "
pattern was found.  The code applies it unconditionally to the possibly
already rewritten name: on "vtable for a to b" the " for " rewrite produces
"a to b [vtable]" and the " to " rewrite then fires as well, yielding
"b [vtable] [a]" instead of the claimed "a to b [vtable]". -/
theorem c7_to_rewrite_not_exclusive :
    ((_NormalizeNames fsPStub [mkSym "vtable for a to b".data 1 1 'r' ".rodata".data]).map
        (fun s => s.name)) = ["b [vtable] [a]".data] ∧
    ((_NormalizeNames fsPStub [mkSym "vtable for a to b".data 1 1 'r' ".rodata".data]).map
        (fun s => s.name)) ≠ ["a to b [vtable]".data] := by
  constructor
  · decide
  · decide

/-- The first two rewriting steps compute exactly `forToRewritten` on the
name, touching nothing else: the " for " rewrite when its pattern is found,
then the " to " rewrite on whatever name that left behind. -/
theorem stepTo_stepFor (s : Symbol) :
    stepTo (stepFor s) = { s with name := forToRewritten s.name } := by
  unfold stepFor forToRewritten
  rcases hi : pyFind s.name forTok 30 with _ | i
  · show stepTo s = { s with name := match pyFind s.name toTok 30 with
      | some j => rewriteTo s.name j
      | none => s.name }
    unfold stepTo
    rcases hj : pyFind s.name toTok 30 with _ | j <;> rfl
  · show (match pyFind (rewriteFor s.name i) toTok 30 with
      | some j => ({ s with name := rewriteTo (rewriteFor s.name i) j } : Symbol)
      | none => { s with name := rewriteFor s.name i }) =
      { s with name := match pyFind (rewriteFor s.name i) toTok 30 with
        | some j => rewriteTo (rewriteFor s.name i) j
        | none => rewriteFor s.name i }
    rcases hj : pyFind (rewriteFor s.name i) toTok 30 with _ | j <;> rfl

/-- C7 (amended): for every symbol not carrying the reserved marker, the
name is first rewritten from "X for Y" to "Y [X]" when the " for " pattern
occurs within the first 30 characters, and the "X to Y" rewrite is then
additionally applied whenever the name as it then stands - already
rewritten or not - contains " to " within its first 30 characters; the
" to " rewrite is not reserved to the case where no " for " was found (for
non-code symbols not re-triggering the later rules). -/
theorem c7_rewrite_rules_amended (fsP : List Char → List Char × List Char)
    (s : Symbol)
    (hstar : leadsWith s.name starC = false)
    (hsec : s.sectionLetter ≠ 't')
    (hanon : removeAllSub anonTok (forToRewritten s.name) = forToRewritten s.name)
    (hpar : (forToRewritten s.name).contains '(' = false) :
    (normalizeSym fsP s).name = forToRewritten s.name := by
  have h12 : stepTo (stepFor s) = { s with name := forToRewritten s.name } :=
    stepTo_stepFor s
  have h3 : stepParse fsP { s with name := forToRewritten s.name } =
      { s with name := forToRewritten s.name } := by
    unfold stepParse
    rw [if_neg hsec]
  have h4 : stepAnon { s with name := forToRewritten s.name } =
      { s with name := forToRewritten s.name } := by
    unfold stepAnon
    rw [if_pos (show forToRewritten s.name = removeAllSub anonTok (forToRewritten s.name)
      from hanon.symm)]
  have h5 : stepParen { s with name := forToRewritten s.name } =
      { s with name := forToRewritten s.name } := by
    unfold stepParen
    have hn : ({ s with name := forToRewritten s.name } : Symbol).name.contains '(' = false :=
      hpar
    rw [if_neg (fun hcontra => absurd hcontra.2 (by rw [hn]; simp))]
  unfold normalizeSym
  simp only [hstar, Bool.false_eq_true, if_false]
  rw [dedupFull_name]
  unfold normalizeSteps
  rw [h12, h3, h4, h5]

/-- Witness for C7 (amended) at the three names of the claim: one with only
" for ", one with only " to ", and one with " for " whose rewritten form
re-triggers the " to " rewrite. -/
theorem c7_rewrite_rules_amended_witness :
    (normalizeSym fsPStub (mkSym "vtable for Foo".data 1 1 'r' ".rodata".data)).name =
      "Foo [vtable]".data ∧
    (normalizeSym fsPStub (mkSym "virtual thunk to Bar".data 1 1 'r' ".rodata".data)).name =
      "Bar [virtual thunk]".data ∧
    (normalizeSym fsPStub (mkSym "vtable for a to b".data 1 1 'r' ".rodata".data)).name =
      "b [vtable] [a]".data :=
  ⟨(c7_rewrite_rules_amended fsPStub (mkSym "vtable for Foo".data 1 1 'r' ".rodata".data)
      (by decide) (by decide) (by decide) (by decide)).trans (by decide),
   (c7_rewrite_rules_amended fsPStub (mkSym "virtual thunk to Bar".data 1 1 'r' ".rodata".data)
      (by decide) (by decide) (by decide) (by decide)).trans (by decide),
   (c7_rewrite_rules_amended fsPStub (mkSym "vtable for a to b".data 1 1 'r' ".rodata".data)
      (by decide) (by decide) (by decide) (by decide)).trans (by decide)⟩

/-! ## Claim C4 -/

theorem checkSectionSizes_ok (elfSizes : List (List Char × Int)) (info : SizeInfo) :
    checkSectionSizes elfSizes info = .ok () ↔
      ∀ kv ∈ elfSizes, getDict info.section_sizes kv.1 = some kv.2 := by
  induction elfSizes with
  | nil => simp [checkSectionSizes]
  | cons kv t ih =>
    obtain ⟨k, v⟩ := kv
    unfold checkSectionSizes
    split_ifs with h
    · simp [ih, h]
    · simp only [List.mem_cons, forall_eq_or_imp]
      constructor
      · intro hh
        exact absurd hh (by simp)
      · intro hh
        exact absurd hh.1 h

/-- C4: on a fresh run with authoritative ELF section sizes available, the
snapshot is written exactly when every reported section size matches the
reconciled `section_sizes` entry for that name; a differing or absent entry
makes the run abort before the write. -/
theorem c4_section_size_gate (elfSizes : List (List Char × Int)) (info x : SizeInfo) :
    mainValidateAndSave elfSizes info = .ok x ↔
      (x = info ∧ ∀ kv ∈ elfSizes, getDict info.section_sizes kv.1 = some kv.2) := by
  unfold mainValidateAndSave
  cases hc : checkSectionSizes elfSizes info with
  | error e =>
    simp only [hc, Except.bind, bind]
    constructor
    · intro hh
      exact absurd hh (by simp)
    · intro hh
      rw [← checkSectionSizes_ok elfSizes info] at hh
      rw [hc] at hh
      exact absurd hh.2 (by simp)
  | ok u =>
    cases u
    simp only [hc, Except.bind, bind]
    rw [← checkSectionSizes_ok elfSizes info]
    rw [hc]
    constructor
    · intro hh
      simp only [Except.ok.injEq] at hh
      exact ⟨hh.symm, rfl⟩
    · intro hh
      rw [hh.1]

/-- Witness for C4: one matching .text entry lets the snapshot through. -/
theorem c4_section_size_gate_witness :
    mainValidateAndSave [(".text".data, 7)]
        { section_sizes := [(".text".data, 7)], symbols := [] } =
      .ok { section_sizes := [(".text".data, 7)], symbols := [] } :=
  (c4_section_size_gate [(".text".data, 7)]
      { section_sizes := [(".text".data, 7)], symbols := [] }
      { section_sizes := [(".text".data, 7)], symbols := [] }).mpr
    ⟨rfl, by decide⟩

/-- C8: the claim says any line-count mismatch of the demangler output is
fatal and the Unmangler never continues with partially rewritten names.
The code only catches the excess case (an `IndexError`): with two mangled
symbols submitted and only one output line returned, the run continues,
rewriting the first name and silently keeping the second one mangled. -/
theorem c8_short_output_not_fatal :
    _UnmangleRemainingSymbols demOneLine
        [mkSym "_Za".data 1 1 't' ".text".data, mkSym "_Zb".data 2 1 't' ".text".data] =
      .ok [{ (mkSym "_Za".data 1 1 't' ".text".data) with name := "f()".data },
           mkSym "_Zb".data 2 1 't' ".text".data] := by
  rfl

/-- C8 (amended): for a non-empty batch, a non-zero exit code is fatal, and
more output lines than submitted names abort the run through an index
error; fewer output lines than submitted names are NOT detected - the run
continues, positionally rewriting only the covered names.  The external
process is invoked once; nothing is retried. -/
theorem c8_demangler_contract_amended (dem : List (List Char) → Int × List (List Char))
    (syms : List Symbol)
    (hne : (syms.filter (fun s => leadsWith s.name zTok)).isEmpty = false) :
    ((dem ((syms.filter (fun s => leadsWith s.name zTok)).map (fun s => s.name))).1 ≠ 0 →
      _UnmangleRemainingSymbols dem syms = .error "assert proc.returncode == 0") ∧
    ((dem ((syms.filter (fun s => leadsWith s.name zTok)).map (fun s => s.name))).1 = 0 →
      (syms.filter (fun s => leadsWith s.name zTok)).length <
        (dem ((syms.filter (fun s => leadsWith s.name zTok)).map (fun s => s.name))).2.length →
      _UnmangleRemainingSymbols dem syms = .error "IndexError: list index out of range") ∧
    ((dem ((syms.filter (fun s => leadsWith s.name zTok)).map (fun s => s.name))).1 = 0 →
      (dem ((syms.filter (fun s => leadsWith s.name zTok)).map (fun s => s.name))).2.length ≤
        (syms.filter (fun s => leadsWith s.name zTok)).length →
      _UnmangleRemainingSymbols dem syms =
        .ok (applyRenames
          (dem ((syms.filter (fun s => leadsWith s.name zTok)).map (fun s => s.name))).2
          0 syms)) := by
  refine ⟨?_, ?_, ?_⟩
  · intro h
    unfold _UnmangleRemainingSymbols
    rw [if_neg (by simp [hne]), if_pos h]
  · intro h1 h2
    unfold _UnmangleRemainingSymbols
    rw [if_neg (by simp [hne]), if_neg (by simp [h1]), if_pos h2]
  · intro h1 h2
    unfold _UnmangleRemainingSymbols
    rw [if_neg (by simp [hne]), if_neg (by simp [h1]), if_neg (by omega)]

/-- Witness for C8 (amended): a failing demangler (exit code 1) on a batch
of one mangled name aborts the run. -/
theorem c8_demangler_contract_amended_witness :
    _UnmangleRemainingSymbols demFail [mkSym "_Za".data 1 1 't' ".text".data] =
      .error "assert proc.returncode == 0" :=
  (c8_demangler_contract_amended demFail [mkSym "_Za".data 1 1 't' ".text".data]
      (by decide)).1 (by decide)

theorem applyRenames_proj {α : Type} (f : Symbol → α)
    (hf : ∀ s nm, f { s with name := nm } = f s) :
    ∀ (lines : List (List Char)) (k : Nat) (syms : List Symbol),
      (applyRenames lines k syms).map f = syms.map f := by
  intro lines k syms
  induction syms generalizing k with
  | nil => rfl
  | cons x t ih =>
    unfold applyRenames
    split_ifs with h
    · simp [hf, ih]
    · simp [ih]

theorem unmangle_proj {α : Type} (f : Symbol → α)
    (hf : ∀ s nm, f { s with name := nm } = f s)
    (dem : List (List Char) → Int × List (List Char)) (syms out : List Symbol)
    (h : _UnmangleRemainingSymbols dem syms = .ok out) : out.map f = syms.map f := by
  unfold _UnmangleRemainingSymbols at h
  split_ifs at h with h1 h2 h3
  · simp only [Except.ok.injEq] at h
    subst h; rfl
  · simp only [Except.ok.injEq] at h
    subst h
    exact applyRenames_proj f hf _ 0 syms

theorem extractStep_fail (mapper : List Char → Option (List Char)) (s : Symbol)
    (hsp : s.source_path = []) (hop : s.object_path ≠ [])
    (hdd : leadsWith s.object_path "..".data = false)
    (hfail : mapper s.object_path = none ∨ mapper s.object_path = some []) :
    (extractStep mapper s).2 = false := by
  unfold extractStep
  rw [if_neg (by simp [hsp, hop]), if_neg (by simp [hdd])]
  rcases hfail with hm | hm <;> rw [hm]
  rfl

theorem extract_cons (mapper : List Char → Option (List Char)) (x : Symbol)
    (t : List Symbol) :
    _ExtractSourcePaths mapper (x :: t) =
      ((extractStep mapper x).1 :: (_ExtractSourcePaths mapper t).1,
        (extractStep mapper x).2 && (_ExtractSourcePaths mapper t).2) := rfl

theorem extract_allfound_false (mapper : List Char → Option (List Char))
    (syms : List Symbol) (s : Symbol) (hs : s ∈ syms)
    (hflag : (extractStep mapper s).2 = false) :
    (_ExtractSourcePaths mapper syms).2 = false := by
  induction syms with
  | nil => simp at hs
  | cons x t ih =>
    rw [extract_cons]
    rcases List.mem_cons.mp hs with hx | hx
    · subst hx
      simp [hflag]
    · simp [ih hx]

/-- C9: on a fresh-artifact run, an eligible symbol (empty source path,
non-empty object path not escaping the build tree) whose object path the
build-dependency lookup cannot resolve makes the run abort: the pipeline
never returns a SizeInfo, so no snapshot is produced. -/
theorem c9_unresolved_source_aborts (fsP : List Char → List Char × List Char)
    (dem : List (List Char) → Int × List (List Char))
    (mapper : List Char → Option (List Char))
    (parsed : List (List Char × Int) × List Symbol) (s : Symbol)
    (hs : s ∈ parsed.2) (hsp : s.source_path = []) (hop : s.object_path ≠ [])
    (hdd : leadsWith s.object_path "..".data = false)
    (hfail : mapper s.object_path = none ∨ mapper s.object_path = some []) :
    isOkE (analyzeMapFile fsP dem mapper parsed) = false := by
  unfold analyzeMapFile
  cases hrec : _RemoveDuplicatesAndCalculatePadding parsed.2 with
  | error e => simp [isOkE, Except.bind, bind, hrec]
  | ok syms1 =>
    cases hunm : _UnmangleRemainingSymbols dem syms1 with
    | error e => simp [isOkE, Except.bind, bind, hrec, hunm]
    | ok syms2 =>
      have hp1 : syms1.map pathsProj = parsed.2.map pathsProj :=
        reconcile_proj_inv pathsProj (fun s g => rfl) parsed.2 syms1 hrec
      have hp2 : syms2.map pathsProj = syms1.map pathsProj :=
        unmangle_proj pathsProj (fun s nm => rfl) dem syms1 syms2 hunm
      have hmem : pathsProj s ∈ syms2.map pathsProj := by
        rw [hp2, hp1]
        exact List.mem_map_of_mem pathsProj hs
      obtain ⟨s2, hs2, hps2⟩ := List.mem_map.mp hmem
      have hobj : s2.object_path = s.object_path := congrArg Prod.fst hps2
      have hsrc : s2.source_path = s.source_path := congrArg Prod.snd hps2
      have hflag : (extractStep mapper s2).2 = false := by
        refine extractStep_fail mapper s2 ?_ ?_ ?_ ?_
        · rw [hsrc, hsp]
        · rw [hobj]; exact hop
        · rw [hobj]; exact hdd
        · rw [hobj]; exact hfail
      have hall : (_ExtractSourcePaths mapper syms2).2 = false :=
        extract_allfound_false mapper syms2 s2 hs2 hflag
      simp [isOkE, Except.bind, bind, hrec, hunm, hall]

/-- Witness for C9: a single symbol with object path "obj/a.o" and no source
path, with a lookup that cannot resolve it, yields no snapshot. -/
theorem c9_unresolved_source_aborts_witness :
    isOkE (analyzeMapFile fsPStub demOneLine mapperNone
      ([], [{ (mkSym "s".data 1 1 'r' ".rodata".data) with object_path := "obj/a.o".data }])) =
      false :=
  c9_unresolved_source_aborts fsPStub demOneLine mapperNone
    ([], [{ (mkSym "s".data 1 1 'r' ".rodata".data) with object_path := "obj/a.o".data }])
    { (mkSym "s".data 1 1 'r' ".rodata".data) with object_path := "obj/a.o".data }
    (by simp) (by decide) (by decide) (by decide) (Or.inl rfl)

theorem stepFor_core (s : Symbol) : coreProj (stepFor s) = coreProj s := by
  unfold stepFor
  rcases h : pyFind s.name forTok 30 with _ | i <;> rfl

theorem stepTo_core (s : Symbol) : coreProj (stepTo s) = coreProj s := by
  unfold stepTo
  rcases h : pyFind s.name toTok 30 with _ | i <;> rfl

theorem stepParse_core (fsP : List Char → List Char × List Char) (s : Symbol) :
    coreProj (stepParse fsP s) = coreProj s := by
  unfold stepParse
  split_ifs <;> rfl

theorem stepAnon_core (s : Symbol) : coreProj (stepAnon s) = coreProj s := by
  unfold stepAnon
  split_ifs <;> rfl

theorem stepParen_core (s : Symbol) : coreProj (stepParen s) = coreProj s := by
  unfold stepParen
  split_ifs <;> rfl

theorem dedupFull_core (s : Symbol) : coreProj (dedupFull s) = coreProj s := by
  unfold dedupFull
  split_ifs <;> rfl

theorem normalizeSym_core (fsP : List Char → List Char × List Char) (s : Symbol) :
    coreProj (normalizeSym fsP s) = coreProj s := by
  unfold normalizeSym
  split_ifs
  · rfl
  · rw [dedupFull_core]
    unfold normalizeSteps
    rw [stepParen_core, stepAnon_core, stepParse_core, stepTo_core, stepFor_core]

theorem normalizeNames_core (fsP : List Char → List Char × List Char) (syms : List Symbol) :
    (_NormalizeNames fsP syms).map coreProj = syms.map coreProj := by
  unfold _NormalizeNames
  rw [List.map_map]
  exact List.map_congr_left (fun s _ => normalizeSym_core fsP s)

theorem extractStep_fst_proj {α : Type} (f : Symbol → α)
    (hf : ∀ s sp, f { s with source_path := sp } = f s)
    (mapper : List Char → Option (List Char)) (s : Symbol) :
    f (extractStep mapper s).1 = f s := by
  unfold extractStep
  split_ifs
  · rfl
  · rfl
  · rcases mapper s.object_path with _ | sp
    · rfl
    · dsimp only
      split_ifs
      · rfl
      · exact hf s _

theorem extract_fst_proj {α : Type} (f : Symbol → α)
    (hf : ∀ s sp, f { s with source_path := sp } = f s)
    (mapper : List Char → Option (List Char)) (syms : List Symbol) :
    (_ExtractSourcePaths mapper syms).1.map f = syms.map f := by
  induction syms with
  | nil => rfl
  | cons x t ih =>
    rw [extract_cons]
    simp only [List.map_cons, ih, extractStep_fst_proj f hf mapper x]

theorem objPaths_proj {α : Type} (f : Symbol → α)
    (hf : ∀ s p, f { s with object_path := p } = f s) :
    ∀ (syms out : List Symbol), _NormalizeObjectPaths syms = .ok out →
      out.map f = syms.map f := by
  intro syms
  induction syms with
  | nil =>
    intro out h
    simp only [_NormalizeObjectPaths, Except.ok.injEq] at h
    subst h; rfl
  | cons x t ih =>
    intro out h
    unfold _NormalizeObjectPaths at h
    cases hp : normalizeObjectPath x.object_path with
    | error e => rw [hp] at h; exact absurd h (by simp [Except.bind, bind])
    | ok p =>
      rw [hp] at h
      cases hr : _NormalizeObjectPaths t with
      | error e =>
        rw [hr] at h
        exact absurd h (by simp [Except.bind, bind])
      | ok r =>
        rw [hr] at h
        simp only [Except.bind, bind, Except.ok.injEq] at h
        subst h
        simp only [List.map_cons, hf, ih r hr]

/-- Patched symbols take size minus padding from the signature list. -/
theorem zipPatch_map_smp : ∀ (xs : List Symbol) (gs : List RSig),
    xs.length = gs.length →
    (zipPatch xs gs).map (fun s => s.size - s.padding) =
      gs.map (fun g => g.size - g.padding) := by
  intro xs
  induction xs with
  | nil =>
    intro gs hlen
    cases gs with
    | nil => rfl
    | cons g gt => simp at hlen
  | cons x xt ih =>
    intro gs hlen
    cases gs with
    | nil => simp at hlen
    | cons g gt =>
      simp only [zipPatch_cons, List.map_cons, patchSP]
      rw [ih gt (by simpa using hlen)]

/-- Projected view of a stored-and-reloaded symbol list: when per-index
addresses, raw sizes, section data and marker status agree with an original
zero-padding list, the two lists project to the same signatures. -/
theorem map_sigOf_store_eq : ∀ (l orig : List Symbol),
    l.map (fun s => s.address) = orig.map (fun s => s.address) →
    l.map (fun s => s.size - s.padding) = orig.map (fun s => s.size) →
    l.map (fun s => s.sectionLetter) = orig.map (fun s => s.sectionLetter) →
    l.map (fun s => s.section_name) = orig.map (fun s => s.section_name) →
    l.map (fun s => leadsWith s.name starC) = orig.map (fun s => leadsWith s.name starC) →
    (∀ s ∈ orig, s.padding = 0) →
    (l.map storeSymbol).map sigOf = orig.map sigOf := by
  intro l
  induction l with
  | nil =>
    intro orig haddr _ _ _ _ _
    simp only [List.map_nil] at haddr ⊢
    have horig : orig = [] := by
      cases orig with
      | nil => rfl
      | cons b t => simp at haddr
    subst horig; rfl
  | cons a l' ih =>
    intro orig haddr hsmp hsl hsn hst hpz
    cases orig with
    | nil => simp at haddr
    | cons b orig' =>
      simp only [List.map_cons, List.cons.injEq] at haddr hsmp hsl hsn hst
      have hpzb : b.padding = 0 := hpz b (by simp)
      have hpz' : ∀ s ∈ orig', s.padding = 0 := fun s hs => hpz s (by simp [hs])
      simp only [List.map_cons, List.cons.injEq]
      constructor
      · unfold sigOf storeSymbol
        simp only [RSig.mk.injEq]
        exact ⟨haddr.1, hsmp.1, hpzb.symm, hsl.1, hsn.1, hst.1⟩
      · exact ih orig' haddr.2 hsmp.2 hsl.2 hsn.2 hst.2 hpz'

/-- Writing back the reconciler's sizes and paddings into the stored (raw)
symbols recovers the symbols as they stood before storing. -/
theorem store_rebuild : ∀ (l : List Symbol) (gs : List RSig),
    l.map (fun s => s.size) = gs.map (fun g => g.size) →
    l.map (fun s => s.padding) = gs.map (fun g => g.padding) →
    zipPatch (l.map storeSymbol) gs = l := by
  intro l
  induction l with
  | nil => intro gs _ _; rfl
  | cons a l' ih =>
    intro gs hsz hpd
    cases gs with
    | nil => simp at hsz
    | cons g gt =>
      simp only [List.map_cons, List.cons.injEq] at hsz hpd
      simp only [List.map_cons, zipPatch_cons]
      have hhead : patchSP (storeSymbol a) g = a := by
        unfold patchSP storeSymbol
        ext <;> simp [hsz.1, hpd.1]
      rw [hhead, ih gt hsz.2 hpd.2]

/-- Transport of a pointwise map equality along a post-composition. -/
theorem map_comp_of_map_eq {α β γ : Type} {f : α → γ} {l1 l2 : List α}
    (h : l1.map f = l2.map f) (g : γ → β) :
    l1.map (fun a => g (f a)) = l2.map (fun a => g (f a)) := by
  have := congrArg (List.map g) h
  simpa [List.map_map, Function.comp_def] using this

/-- The `.size` branch of `Analyze` for a successful reconciler run. -/
theorem analyzeSizeFile_eq (fsP : List Char → List Char × List Char) (info : SizeInfo)
    (syms1 : List Symbol)
    (h : _RemoveDuplicatesAndCalculatePadding info.symbols = .ok syms1) :
    analyzeSizeFile fsP info = .ok { info with symbols := _NormalizeNames fsP syms1 } := by
  unfold analyzeSizeFile
  rw [h]
  rfl

/-- C5: the claim says a reloaded snapshot reproduces the padding, name and
full_name values of the fresh run.  It does not: the fresh reconciler sees
the raw name "(anonymous namespace)::*x" (no reserved marker) and skips the
256-byte gap, leaving padding 0; normalization then strips the qualifier,
exposing the leading marker, so the reload's reconciler attributes the same
gap, producing padding 256.  Fresh paddings are [0, 0], reloaded paddings
[0, 256]. -/
theorem c5_reload_padding_differs :
    ((analyzeMapFile fsPStub demOneLine mapperNone
        ([(".rodata".data, 271)], [c5p, c5c])).bind (fun fresh =>
      (analyzeSizeFile fsPStub { section_sizes := fresh.section_sizes,
                                 symbols := fresh.symbols.map storeSymbol }).map
        (fun reloaded =>
          (fresh.symbols.map (fun s => s.padding),
           reloaded.symbols.map (fun s => s.padding))))) =
      .ok ([0, 0], [0, 256]) ∧ ([0, 0] : List Int) ≠ [0, 256] := by
  constructor
  · rfl
  · decide

/-- C5 (amended): loading a persisted snapshot re-enters the pipeline at the
Interval Reconciler and Name Normalizer only, and it reproduces the fresh
run's SizeInfo exactly - padding, name and full_name included - provided
normalization left every surviving symbol a fixed point of the Name
Normalizer and did not change whether any name starts with the reserved '*'
marker (the raw symbols carrying zero padding, as the parser produces
them).  Without those provisos the reloaded values can differ. -/
theorem c5_reload_equivalence_amended
    (fsP : List Char → List Char × List Char)
    (dem : List (List Char) → Int × List (List Char))
    (mapper : List Char → Option (List Char))
    (parsed : List (List Char × Int) × List Symbol)
    (out : SizeInfo)
    (hp0 : ∀ s ∈ parsed.2, s.padding = 0)
    (hok : analyzeMapFile fsP dem mapper parsed = .ok out)
    (hstar : out.symbols.map (fun s => leadsWith s.name starC) =
      parsed.2.map (fun s => leadsWith s.name starC))
    (hfix : ∀ s ∈ out.symbols, normalizeSym fsP s = s) :
    analyzeSizeFile fsP { section_sizes := out.section_sizes,
                          symbols := out.symbols.map storeSymbol } = .ok out := by
  have hnorm : _NormalizeNames fsP out.symbols = out.symbols := by
    unfold _NormalizeNames
    rw [List.map_congr_left hfix]
    simp
  -- decompose the fresh run
  unfold analyzeMapFile at hok
  cases hrec : _RemoveDuplicatesAndCalculatePadding parsed.2 with
  | error e => rw [hrec] at hok; exact absurd hok (by simp [Except.bind, bind])
  | ok syms1 =>
  rw [hrec] at hok
  simp only [Except.bind, bind] at hok
  cases hunm : _UnmangleRemainingSymbols dem syms1 with
  | error e => rw [hunm] at hok; exact absurd hok (by simp)
  | ok syms2 =>
  rw [hunm] at hok
  simp only at hok
  cases hext : (_ExtractSourcePaths mapper syms2).2 with
  | false => rw [hext] at hok; simp at hok
  | true =>
  rw [hext] at hok
  simp only [if_true] at hok
  cases hobj : _NormalizeObjectPaths
      (_NormalizeNames fsP (_ExtractSourcePaths mapper syms2).1) with
  | error e => rw [hobj] at hok; simp at hok
  | ok syms5 =>
  rw [hobj] at hok
  simp only [Except.ok.injEq] at hok
  have hsyms : out.symbols = syms5 := (congrArg SizeInfo.symbols hok).symm
  -- the passes after the reconciler keep the reconciler-owned fields
  have hc2 : syms2.map coreProj = syms1.map coreProj :=
    unmangle_proj coreProj (fun s nm => rfl) dem syms1 syms2 hunm
  have hc3 : (_ExtractSourcePaths mapper syms2).1.map coreProj = syms2.map coreProj :=
    extract_fst_proj coreProj (fun s sp => rfl) mapper syms2
  have hc4 : (_NormalizeNames fsP (_ExtractSourcePaths mapper syms2).1).map coreProj =
      (_ExtractSourcePaths mapper syms2).1.map coreProj :=
    normalizeNames_core fsP _
  have hc5 : syms5.map coreProj =
      (_NormalizeNames fsP (_ExtractSourcePaths mapper syms2).1).map coreProj :=
    objPaths_proj coreProj (fun s p => rfl) _ syms5 hobj
  have hcore : syms5.map coreProj = syms1.map coreProj := by
    rw [hc5, hc4, hc3, hc2]
  have haddr5 : syms5.map (fun s => s.address) = syms1.map (fun s => s.address) :=
    map_comp_of_map_eq hcore (fun c => c.1)
  have hsize5 : syms5.map (fun s => s.size) = syms1.map (fun s => s.size) :=
    map_comp_of_map_eq hcore (fun c => c.2.1)
  have hpad5 : syms5.map (fun s => s.padding) = syms1.map (fun s => s.padding) :=
    map_comp_of_map_eq hcore (fun c => c.2.2.1)
  have hsl5 : syms5.map (fun s => s.sectionLetter) = syms1.map (fun s => s.sectionLetter) :=
    map_comp_of_map_eq hcore (fun c => c.2.2.2.1)
  have hsn5 : syms5.map (fun s => s.section_name) = syms1.map (fun s => s.section_name) :=
    map_comp_of_map_eq hcore (fun c => c.2.2.2.2)
  have hsmp5 : syms5.map (fun s => s.size - s.padding) =
      syms1.map (fun s => s.size - s.padding) :=
    map_comp_of_map_eq hcore (fun c => c.2.1 - c.2.2.1)
  cases hsy : out.symbols with
  | nil =>
    obtain ⟨oss, osyms⟩ := out
    have h0 : osyms = [] := hsy
    subst h0
    rfl
  | cons q qs =>
  rw [← hsy]
  -- with a nonempty output the raw input is nonempty too
  cases hpx : parsed.2 with
  | nil =>
    exfalso
    rw [hpx] at hrec
    simp only [_RemoveDuplicatesAndCalculatePadding, Except.ok.injEq] at hrec
    have h0 : syms5.length = 0 := by
      have := congrArg List.length hcore
      simp only [List.length_map] at this
      rw [this, ← hrec]
      rfl
    rw [hsy] at hsyms
    rw [← hsyms] at h0
    simp at h0
  | cons p xs =>
  rw [hpx] at hrec hp0 hstar
  obtain ⟨gs, hgs, hout1, hglen⟩ := reconcile_ok_inv p xs syms1 hrec
  have hplen : (p :: xs).length = gs.length := by simp [hglen]
  have haddr1 : syms1.map (fun s => s.address) = (p :: xs).map (fun s => s.address) := by
    rw [hout1]; exact zipPatch_map_inv (fun s => s.address) (fun s g => rfl) _ gs hplen
  have hsl1 : syms1.map (fun s => s.sectionLetter) =
      (p :: xs).map (fun s => s.sectionLetter) := by
    rw [hout1]; exact zipPatch_map_inv (fun s => s.sectionLetter) (fun s g => rfl) _ gs hplen
  have hsn1 : syms1.map (fun s => s.section_name) =
      (p :: xs).map (fun s => s.section_name) := by
    rw [hout1]; exact zipPatch_map_inv (fun s => s.section_name) (fun s g => rfl) _ gs hplen
  have hsize1 : syms1.map (fun s => s.size) = gs.map (fun g => g.size) := by
    rw [hout1]; exact zipPatch_map_size _ gs hplen
  have hpad1 : syms1.map (fun s => s.padding) = gs.map (fun g => g.padding) := by
    rw [hout1]; exact zipPatch_map_padding _ gs hplen
  have hsmp1 : syms1.map (fun s => s.size - s.padding) =
      gs.map (fun g => g.size - g.padding) := by
    rw [hout1]; exact zipPatch_map_smp _ gs hplen
  have hp0' : ∀ g ∈ xs.map sigOf, g.padding = 0 := by
    intro g hg
    obtain ⟨x, hx, rfl⟩ := List.mem_map.mp hg
    simpa using hp0 x (by simp [hx])
  have hpp : p.padding = 0 := hp0 p (by simp)
  have hsmp_gs : gs.map (fun g => g.size - g.padding) = (p :: xs).map (fun s => s.size) := by
    have hrs := recSig_smp (xs.map sigOf) [] (sigOf p) gs hp0' hgs
    simp only [sigOf_size, sigOf_padding, List.map_map] at hrs
    rw [hrs, hpp]
    simp only [List.map_cons, sub_zero]
    rfl
  have hsig : (out.symbols.map storeSymbol).map sigOf = (p :: xs).map sigOf := by
    apply map_sigOf_store_eq
    · rw [hsyms, haddr5, haddr1]
    · rw [hsyms, hsmp5, hsmp1, hsmp_gs]
    · rw [hsyms, hsl5, hsl1]
    · rw [hsyms, hsn5, hsn1]
    · exact hstar
    · exact hp0
  have hstored : out.symbols.map storeSymbol =
      storeSymbol q :: qs.map storeSymbol := by
    rw [hsy]; rfl
  have hsz : out.symbols.map (fun s => s.size) = gs.map (fun g => g.size) := by
    rw [hsyms, hsize5, hsize1]
  have hpd : out.symbols.map (fun s => s.padding) = gs.map (fun g => g.padding) := by
    rw [hsyms, hpad5, hpad1]
  have hrecon2 : _RemoveDuplicatesAndCalculatePadding (out.symbols.map storeSymbol) =
      .ok out.symbols := by
    rw [hstored] at hsig ⊢
    show recAux [] (storeSymbol q) (qs.map storeSymbol) = .ok out.symbols
    rw [recAux_sig]
    simp only [List.map_cons, List.cons.injEq] at hsig
    rw [hsig.1, hsig.2, hgs]
    show Except.ok (zipPatch (storeSymbol q :: qs.map storeSymbol) gs) = .ok out.symbols
    rw [← hstored]
    rw [store_rebuild out.symbols gs hsz hpd]
  have hfin := analyzeSizeFile_eq fsP
    { section_sizes := out.section_sizes, symbols := out.symbols.map storeSymbol }
    out.symbols hrecon2
  rw [hfin, hnorm]

/-- Witness for C5 (amended): a one-symbol run with nothing to rewrite
round-trips through store and reload. -/
theorem c5_reload_equivalence_amended_witness :
    analyzeSizeFile fsPStub
        { section_sizes := [(".rodata".data, 10)],
          symbols := [mkSym "p".data 100 10 'r' ".rodata".data].map storeSymbol } =
      .ok { section_sizes := [(".rodata".data, 10)],
            symbols := [mkSym "p".data 100 10 'r' ".rodata".data] } :=
  c5_reload_equivalence_amended fsPStub demOneLine mapperNone
    ([(".rodata".data, 10)], [mkSym "p".data 100 10 'r' ".rodata".data])
    { section_sizes := [(".rodata".data, 10)],
      symbols := [mkSym "p".data 100 10 'r' ".rodata".data] }
    (by decide) (by rfl) (by rfl) (by decide)

end M2S

